import Mathlib

/-!
Verification development for `evopkg.py`: a shallow embedding of the
existence prober (`package_exists`), the privilege policy
(`requires_sudo` / `command_mappings`), the comparison engine
(`compare_packages` / `fetch_package_info`), the repository resolver
(`select_repository`) and the cell truncation (`truncate_text`),
together with theorems settling the specification claims.

Python strings are modelled as `List Char`, `str.lower` as a
per-character map, dictionaries as association lists with
insert-or-overwrite semantics, and child processes as environment
functions from the probed pair to an abstract outcome.
-/

set_option autoImplicit false
set_option linter.unusedVariables false

namespace Evopkg

/-- Python strings are modelled as lists of characters. -/
abbrev Str := List Char

/-- Turns a Lean string literal into the character-list model. -/
def strL (s : String) : Str := s.data

/-- The closed set of package-manager backends known to evopkg
(the key set of `search_commands` and `command_mappings` in `evopkg.py`). -/
inductive Backend where
  | pacman | paru | yay | apt | dnf | zypper | snap | flatpak
  deriving DecidableEq, Repr

/-- A value returned by the Python function `package_exists`: either a bool
(`True` for a hit, `False` for a miss or a swallowed subprocess error) or a
string (the flatpak canonical identifier from the line-scan branch). -/
inductive PyValue where
  | bool (b : Bool)
  | str (s : Str)
  deriving DecidableEq, Repr

/-- Outcome of a child search process (`subprocess.run(..., timeout=10)`):
normal completion with captured stdout and exit status, a
`subprocess.TimeoutExpired`, or another `subprocess.SubprocessError`. -/
inductive SubprocOutcome where
  | ok (stdout : Str) (returncode : Int)
  | timeout
  | failed
  deriving DecidableEq, Repr

/-- Per-character lower-casing, modelling Python `str.lower()`. -/
def pyLower (s : Str) : Str := s.map Char.toLower

/-- `leadMatch needle hay` is true when `needle` is an initial segment of
`hay`; models Python `str.startswith`. -/
def leadMatch : Str → Str → Bool
  | [], _ => true
  | _ :: _, [] => false
  | a :: as, b :: bs => a == b && leadMatch as bs

/-- `containsSub hay needle` is true when `needle` occurs contiguously
inside `hay`; models the Python substring test `needle in hay`. -/
def containsSub (hay needle : Str) : Bool :=
  match hay with
  | [] => needle.isEmpty
  | c :: t => leadMatch needle (c :: t) || containsSub t needle

/-- Python `str.splitlines`, with the newline character as the line break:
`"a\nb" ↦ ["a", "b"]`, a trailing newline adds no trailing empty line, and
the empty string has no lines. -/
def splitlines : Str → List Str
  | [] => []
  | c :: cs =>
    if c = '\n' then [] :: splitlines cs
    else
      match splitlines cs with
      | [] => [[c]]
      | l :: ls => (c :: l) :: ls

/-- Splits a string at every character satisfying `p`, keeping empty chunks
(helper for the whitespace split below). -/
def splitOnPred (p : Char → Bool) : Str → List Str
  | [] => [[]]
  | c :: cs =>
    if p c then [] :: splitOnPred p cs
    else
      match splitOnPred p cs with
      | [] => [[c]]
      | l :: ls => (c :: l) :: ls

/-- Python `str.split()` with no argument: split on whitespace runs and
drop empty chunks. -/
def pySplitWs (s : Str) : List Str :=
  (splitOnPred Char.isWhitespace s).filter (fun t => !t.isEmpty)

/-- Python `str.strip()`: drop whitespace from both ends. -/
def pyStrip (s : Str) : Str :=
  ((s.dropWhile Char.isWhitespace).reverse.dropWhile Char.isWhitespace).reverse

/-- Everything after the first colon of `s` (empty when no colon follows). -/
def afterFirstColon : Str → Str
  | [] => []
  | c :: cs => if c = ':' then cs else afterFirstColon cs

/-- Python `s.split(":", 1)[-1]`: the part after the first colon when one
is present, the whole string otherwise. -/
def pySplitColon1 (s : Str) : Str :=
  if ':' ∈ s then afterFirstColon s else s

/-- `search_commands` in `package_exists`: the search-verb argument-vector
base of each backend. -/
def search_commands (b : Backend) : List Str :=
  match b with
  | .pacman => [strL "pacman", strL "-Ss"]
  | .paru => [strL "paru", strL "-Ss"]
  | .yay => [strL "yay", strL "-Ss"]
  | .apt => [strL "apt", strL "search"]
  | .dnf => [strL "dnf", strL "search"]
  | .zypper => [strL "zypper", strL "search"]
  | .snap => [strL "snap", strL "find"]
  | .flatpak => [strL "flatpak", strL "search"]

/-- The body of `package_exists` applied to a given subprocess outcome for
`search_commands(pkg_manager) + [package]` (the `lru_cache` decorator is
modelled separately by `cacheStep`). Both exception arms return `False`.
On `flatpak`, when the lower-cased name is absent from the lower-cased
stdout the source scans the stdout lines and returns the first whitespace
token of the first line containing the lower-cased name; a completed loop
falls through to the common boolean return. `(pySplitWs line).headD []`
stands in for the Python indexing `line.split()[0]`. -/
def package_exists_run (package : Str) (pkg_manager : Backend) (oc : SubprocOutcome) : PyValue :=
  match oc with
  | .timeout => PyValue.bool false
  | .failed => PyValue.bool false
  | .ok stdout rc =>
    let output := pyLower stdout
    let hit := containsSub output (pyLower package)
    if pkg_manager = Backend.flatpak ∧ hit = false then
      match (splitlines stdout).find? (fun line => containsSub (pyLower line) (pyLower package)) with
      | some line => PyValue.str ((pySplitWs line).headD [])
      | none => PyValue.bool (hit && (rc == 0))
    else
      PyValue.bool (hit && (rc == 0))

/-- `truncate_text` with the only used cutoff `max_length = 22`. -/
def truncate_text (text : Str) : Str :=
  if text.length ≤ 22 then text else text.take 19 ++ strL "..."

/-- The `sudo_required_commands` table of `requires_sudo`, verbatim. -/
def sudo_required_commands (b : Backend) : List Str :=
  match b with
  | .pacman => [strL "-S", strL "-R", strL "-Sy", strL "-Syu", strL "-Sc"]
  | .paru => []
  | .yay => []
  | .apt => [strL "install", strL "remove", strL "update", strL "dist-upgrade", strL "autoremove"]
  | .dnf => [strL "install", strL "remove", strL "update", strL "upgrade", strL "clean"]
  | .zypper => [strL "install", strL "remove", strL "refresh", strL "update", strL "clean"]
  | .snap => [strL "snap", strL "install", strL "remove"]
  | .flatpak => [strL "install", strL "uninstall"]

/-- `requires_sudo(command, pkg_manager)`: membership of the command key in
the backend's privilege list. -/
def requires_sudo (command : Str) (pkg_manager : Backend) : Bool :=
  decide (command ∈ sudo_required_commands pkg_manager)

/-- Generic association-list lookup (first matching key wins). -/
def pyAssoc {α : Type} : List (Str × α) → Str → Option α
  | [], _ => none
  | e :: es, k => if e.1 = k then some e.2 else pyAssoc es k

/-- The `command_mappings` table: abstract verb key → literal argument
vector, verbatim from the source. -/
def command_mappings (b : Backend) : List (Str × List Str) :=
  match b with
  | .pacman =>
    [(strL "-S", [strL "pacman", strL "-S"]), (strL "-R", [strL "pacman", strL "-R"]),
     (strL "-Sy", [strL "pacman", strL "-Sy"]), (strL "-Syu", [strL "pacman", strL "-Syu"]),
     (strL "-Sc", [strL "pacman", strL "-Sc"]), (strL "-Q", [strL "pacman", strL "-Q"]),
     (strL "-Qs", [strL "pacman", strL "-Qs"]), (strL "-Ss", [strL "pacman", strL "-Ss"]),
     (strL "-Qi", [strL "pacman", strL "-Qi"]), (strL "-Ql", [strL "pacman", strL "-Ql"])]
  | .paru =>
    [(strL "-S", [strL "paru", strL "-S"]), (strL "-R", [strL "paru", strL "-R"]),
     (strL "-Sy", [strL "paru", strL "-Sy"]), (strL "-Syu", [strL "paru", strL "-Syu"]),
     (strL "-Sc", [strL "paru", strL "-Sc"]), (strL "-Q", [strL "paru", strL "-Q"]),
     (strL "-Qs", [strL "paru", strL "-Qs"]), (strL "-Ss", [strL "paru", strL "-Ss"]),
     (strL "-Qi", [strL "paru", strL "-Qi"]), (strL "-Ql", [strL "paru", strL "-Ql"])]
  | .yay =>
    [(strL "-S", [strL "yay", strL "-S"]), (strL "-R", [strL "yay", strL "-R"]),
     (strL "-Sy", [strL "yay", strL "-Sy"]), (strL "-Syu", [strL "yay", strL "-Syu"]),
     (strL "-Sc", [strL "yay", strL "-Sc"]), (strL "-Q", [strL "yay", strL "-Q"]),
     (strL "-Qs", [strL "yay", strL "-Qs"]), (strL "-Ss", [strL "yay", strL "-Ss"]),
     (strL "-Qi", [strL "yay", strL "-Qi"]), (strL "-Ql", [strL "yay", strL "-Ql"])]
  | .apt =>
    [(strL "-S", [strL "apt", strL "install"]), (strL "-R", [strL "apt", strL "remove"]),
     (strL "-Sy", [strL "apt", strL "update"]), (strL "-Syu", [strL "apt", strL "dist-upgrade"]),
     (strL "-Sc", [strL "apt", strL "autoremove"]), (strL "-Q", [strL "dpkg", strL "-l"]),
     (strL "-Qs", [strL "dpkg-query", strL "-l"]), (strL "-Ss", [strL "apt", strL "search"]),
     (strL "-Qi", [strL "apt", strL "show"]), (strL "-Ql", [strL "dpkg", strL "-L"])]
  | .dnf =>
    [(strL "-S", [strL "dnf", strL "install"]), (strL "-R", [strL "dnf", strL "remove"]),
     (strL "-Sy", [strL "dnf", strL "update"]), (strL "-Syu", [strL "dnf", strL "upgrade"]),
     (strL "-Sc", [strL "dnf", strL "clean", strL "all"]),
     (strL "-Q", [strL "dnf", strL "list", strL "installed"]),
     (strL "-Qs", [strL "dnf", strL "list", strL "installed"]),
     (strL "-Ss", [strL "dnf", strL "search"]), (strL "-Qi", [strL "dnf", strL "info"]),
     (strL "-Ql", [strL "rpm", strL "-ql"])]
  | .zypper =>
    [(strL "-S", [strL "zypper", strL "install"]), (strL "-R", [strL "zypper", strL "remove"]),
     (strL "-Sy", [strL "zypper", strL "refresh"]), (strL "-Syu", [strL "zypper", strL "update"]),
     (strL "-Sc", [strL "zypper", strL "clean"]), (strL "-Q", [strL "zypper", strL "se", strL "-i"]),
     (strL "-Qs", [strL "zypper", strL "se", strL "-i"]),
     (strL "-Ss", [strL "zypper", strL "search"]), (strL "-Qi", [strL "zypper", strL "info"]),
     (strL "-Ql", [strL "rpm", strL "-ql"])]
  | .snap =>
    [(strL "-S", [strL "snap", strL "install"]), (strL "-R", [strL "snap", strL "remove"]),
     (strL "-Sy", [strL "snap", strL "refresh"]), (strL "-Syu", [strL "snap", strL "refresh"]),
     (strL "-Sc", [strL "snap", strL "remove", strL "--purge"]),
     (strL "-Q", [strL "snap", strL "list"]), (strL "-Qs", [strL "snap", strL "list"]),
     (strL "-Ss", [strL "snap", strL "find"]), (strL "-Qi", [strL "snap", strL "info"])]
  | .flatpak =>
    [(strL "-S", [strL "flatpak", strL "install"]), (strL "-R", [strL "flatpak", strL "uninstall"]),
     (strL "-Sy", [strL "flatpak", strL "update"]), (strL "-Syu", [strL "flatpak", strL "update"]),
     (strL "-Sc", [strL "flatpak", strL "uninstall", strL "--unused"]),
     (strL "-Q", [strL "flatpak", strL "list"]), (strL "-Qs", [strL "flatpak", strL "list"]),
     (strL "-Ss", [strL "flatpak", strL "search"]), (strL "-Qi", [strL "flatpak", strL "info"])]

/-- The mapped argument vector for a verb key (empty when absent). -/
def cmdFor (b : Backend) (verb : Str) : List Str :=
  (pyAssoc (command_mappings b) verb).getD []

/-- The command vector executed for an abstract verb key: the mapped vector
plus arguments, with `sudo` prepended exactly when `requires_sudo` holds
for the key actually passed at the call sites (`handle_install`, the `-R`
paths and `main` all pass the abstract keys such as `-S` and `-R`). -/
def dispatchCmd (verb : Str) (mgr : Backend) (args : List Str) : List Str :=
  let base := cmdFor mgr verb ++ args
  if requires_sudo verb mgr then strL "sudo" :: base else base

/-! ### Substring and line lemmas

The flatpak line-scan branch of `package_exists` is guarded by the
lower-cased name being absent from the whole lower-cased stdout, yet every
stdout line is a contiguous piece of stdout, so no line can contain what
the whole does not: the branch is unreachable. -/

theorem leadMatch_append (n h t : Str) (hm : leadMatch n h = true) :
    leadMatch n (h ++ t) = true := by
  induction n generalizing h with
  | nil => simp [leadMatch]
  | cons a as ih =>
    cases h with
    | nil => simp [leadMatch] at hm
    | cons b bs =>
      simp only [leadMatch, Bool.and_eq_true] at hm ⊢
      exact ⟨hm.1, ih bs hm.2⟩

theorem containsSub_nil_needle (h : Str) : containsSub h [] = true := by
  cases h <;> simp [containsSub, leadMatch]

theorem containsSub_append_right (h t n : Str) (hc : containsSub h n = true) :
    containsSub (h ++ t) n = true := by
  induction h with
  | nil =>
    simp only [containsSub, List.isEmpty_iff] at hc
    subst hc
    simpa using containsSub_nil_needle t
  | cons c cs ih =>
    simp only [containsSub, Bool.or_eq_true] at hc
    rcases hc with hc | hc
    · simp only [List.cons_append, containsSub, Bool.or_eq_true]
      exact Or.inl (leadMatch_append n (c :: cs) t hc)
    · simp only [List.cons_append, containsSub, Bool.or_eq_true]
      exact Or.inr (ih hc)

theorem containsSub_append_left (h t n : Str) (hc : containsSub h n = true) :
    containsSub (t ++ h) n = true := by
  induction t with
  | nil => simpa using hc
  | cons c ts ih =>
    simp only [List.cons_append, containsSub, Bool.or_eq_true]
    exact Or.inr ih

theorem splitlines_first (s : Str) (l : Str) (ls : List Str) (h : splitlines s = l :: ls) :
    ∃ rest, s = l ++ rest := by
  induction s generalizing l ls with
  | nil => simp [splitlines] at h
  | cons c cs ih =>
    by_cases hc : c = '\n'
    · rw [splitlines, if_pos hc] at h
      obtain ⟨h1, _⟩ := List.cons.inj h
      exact ⟨c :: cs, by rw [← h1]; rfl⟩
    · rw [splitlines, if_neg hc] at h
      rcases hsp : splitlines cs with _ | ⟨l', ls'⟩
      · rw [hsp] at h
        obtain ⟨h1, _⟩ := List.cons.inj h
        exact ⟨cs, by rw [← h1]; rfl⟩
      · rw [hsp] at h
        obtain ⟨h1, _⟩ := List.cons.inj h
        obtain ⟨r, hr⟩ := ih l' ls' hsp
        exact ⟨r, by rw [← h1, hr]; rfl⟩

theorem splitlines_mem_decomp (s : Str) :
    ∀ l ∈ splitlines s, ∃ pre post, s = pre ++ l ++ post := by
  induction s with
  | nil => intro l hl; simp [splitlines] at hl
  | cons c cs ih =>
    intro l hl
    by_cases hc : c = '\n'
    · rw [splitlines, if_pos hc] at hl
      rcases List.mem_cons.mp hl with hl | hl
      · exact ⟨[], c :: cs, by rw [hl]; rfl⟩
      · obtain ⟨pre, post, hps⟩ := ih l hl
        exact ⟨c :: pre, post, by rw [hps]; rfl⟩
    · rw [splitlines, if_neg hc] at hl
      rcases hsp : splitlines cs with _ | ⟨l', ls'⟩
      · rw [hsp] at hl
        rcases List.mem_cons.mp hl with hl | hl
        · exact ⟨[], cs, by rw [hl]; rfl⟩
        · simp at hl
      · rw [hsp] at hl
        rcases List.mem_cons.mp hl with hl | hl
        · obtain ⟨r, hr⟩ := splitlines_first (c :: cs) (c :: l') ls'
            (by rw [splitlines, if_neg hc, hsp])
          exact ⟨[], r, by rw [hl, hr]; rfl⟩
        · obtain ⟨pre, post, hps⟩ := ih l (by rw [hsp]; exact List.mem_cons_of_mem l' hl)
          exact ⟨c :: pre, post, by rw [hps]; rfl⟩

/-- A lower-cased needle contained in one stdout line is contained in the
whole lower-cased stdout. -/
theorem line_sub_whole (p s l : Str) (hmem : l ∈ splitlines s)
    (hline : containsSub (pyLower l) (pyLower p) = true) :
    containsSub (pyLower s) (pyLower p) = true := by
  obtain ⟨pre, post, rfl⟩ := splitlines_mem_decomp s l hmem
  rw [pyLower, List.append_assoc, List.map_append, List.map_append]
  exact containsSub_append_left _ (List.map Char.toLower pre) _
    (containsSub_append_right _ (List.map Char.toLower post) _ hline)

/-- On a completed search process, `package_exists` for flatpak reduces to
the common boolean return: the line-scan guard `package.lower() not in
output` makes the scan unreachable. -/
theorem flatpak_run_eq (p s : Str) (rc : Int) :
    package_exists_run p Backend.flatpak (SubprocOutcome.ok s rc)
      = PyValue.bool (containsSub (pyLower s) (pyLower p) && (rc == 0)) := by
  by_cases hc : containsSub (pyLower s) (pyLower p) = true
  · simp [package_exists_run, hc]
  · have hfind : (splitlines s).find?
        (fun line => containsSub (pyLower line) (pyLower p)) = none := by
      apply List.find?_eq_none.mpr
      intro l hl hcl
      exact hc (line_sub_whole p s l hl hcl)
    have hc' : containsSub (pyLower s) (pyLower p) = false := by
      exact Bool.not_eq_true _ ▸ eq_false_of_ne_true hc
    simp [package_exists_run, hc', hfind]

/-- On a completed search process, `package_exists` returns, for every
backend, the boolean `name-substring-of-stdout AND exit status zero`. -/
theorem run_ok_eq (p : Str) (b : Backend) (s : Str) (rc : Int) :
    package_exists_run p b (SubprocOutcome.ok s rc)
      = PyValue.bool (containsSub (pyLower s) (pyLower p) && (rc == 0)) := by
  by_cases hb : b = Backend.flatpak
  · subst hb; exact flatpak_run_eq p s rc
  · simp [package_exists_run, hb]

/-- `package_exists` only ever returns a boolean, never a string. -/
theorem probe_always_bool (p : Str) (b : Backend) (oc : SubprocOutcome) :
    ∃ v, package_exists_run p b oc = PyValue.bool v := by
  cases oc with
  | ok s rc => exact ⟨_, run_ok_eq p b s rc⟩
  | timeout => exact ⟨false, rfl⟩
  | failed => exact ⟨false, rfl⟩

/-- Claim C2 (counterexample): no input makes the flatpak probe return a
canonical-name string (`FoundAs`); in particular, on the specification's
own scenario (name `firefox`, output line
`org.mozilla.firefox  Firefox  Web Browser`) the probe returns `True`
(Found), because the name is a substring of the whole output. -/
theorem C2_counterexample :
    package_exists_run (strL "firefox") Backend.flatpak
        (SubprocOutcome.ok (strL "org.mozilla.firefox  Firefox  Web Browser") 0)
      = PyValue.bool true
    ∧ ¬ ∃ (p s : Str) (rc : Int) (c : Str),
        package_exists_run p Backend.flatpak (SubprocOutcome.ok s rc) = PyValue.str c := by
  constructor
  · decide
  · rintro ⟨p, s, rc, c, h⟩
    rw [run_ok_eq] at h
    exact PyValue.noConfusion h

/-- Claim C2 (amended): the flatpak line-scan branch of `package_exists` is
unreachable — a case-folded name contained in some output line is always
contained in the case-folded output as a whole, so the guard excludes the
scan — and the flatpak probe returns the same boolean
(substring AND exit-zero) as every other backend, never `FoundAs`. -/
theorem C2_flatpak_no_canonical (p s : Str) (rc : Int) :
    package_exists_run p Backend.flatpak (SubprocOutcome.ok s rc)
      = PyValue.bool (containsSub (pyLower s) (pyLower p) && (rc == 0)) :=
  flatpak_run_eq p s rc

/-- Claim C6: for every package name and backend, the probe on a completed
child process reports `True` (Found) exactly when the exit status is zero
and the case-folded name is a substring of the case-folded stdout; with the
name absent from the output the result is `False` (NotFound) even on a
zero exit status. -/
theorem C6_found_iff (p : Str) (b : Backend) (s : Str) (rc : Int) :
    (package_exists_run p b (SubprocOutcome.ok s rc) = PyValue.bool true
      ↔ containsSub (pyLower s) (pyLower p) = true ∧ rc = 0)
    ∧ (containsSub (pyLower s) (pyLower p) = false →
      package_exists_run p b (SubprocOutcome.ok s rc) = PyValue.bool false) := by
  constructor
  · rw [run_ok_eq]
    simp [Bool.and_eq_true]
  · intro hc
    rw [run_ok_eq, hc]
    simp

/-- Witness for C6 at a concrete input: zero exit status with the name
absent from the output still yields `False`. -/
theorem C6_found_iff_witness :
    containsSub (pyLower (strL "nothing here")) (pyLower (strL "git")) = false
    ∧ package_exists_run (strL "git") Backend.apt
        (SubprocOutcome.ok (strL "nothing here") 0) = PyValue.bool false :=
  ⟨by decide, (C6_found_iff (strL "git") Backend.apt (strL "nothing here") 0).2 (by decide)⟩

theorem truncate_of_le (s : Str) (h : s.length ≤ 22) : truncate_text s = s := by
  simp [truncate_text, h]

/-- Claim C10: `truncate_text` is total and length-bounded by 22, is the
identity exactly on strings of length at most 22, is idempotent, and
otherwise returns the first 19 characters followed by an ellipsis. -/
theorem C10_truncate_props (s : Str) :
    (truncate_text s).length ≤ 22
    ∧ (truncate_text s = s ↔ s.length ≤ 22)
    ∧ truncate_text (truncate_text s) = truncate_text s
    ∧ (s.length ≤ 22 ∨ truncate_text s = s.take 19 ++ strL "...") := by
  by_cases h : s.length ≤ 22
  · rw [truncate_of_le s h]
    exact ⟨h, by simp [h], by rw [truncate_of_le s h], Or.inl h⟩
  · have ht : truncate_text s = s.take 19 ++ strL "..." := by
      simp [truncate_text, h]
    have hlen : (truncate_text s).length = 22 := by
      rw [ht]
      simp [strL, List.length_take]
      omega
    refine ⟨by omega, ⟨?_, fun hle => absurd hle h⟩, truncate_of_le _ (by omega), Or.inr ht⟩
    intro he
    have hll := congrArg List.length he
    rw [hlen] at hll
    omega

/-- Claim C3 (code evaluation at the failing input): `requires_sudo` is
called with the abstract verb keys (`-S`, `-R`, ...), but the privilege
lists for apt, dnf and zypper contain the native verbs (`install`,
`remove`, ...), so despite those table entries the dispatched install
vector for apt carries no `sudo`; only pacman's list uses the abstract
keys, so only pacman commands are elevated. -/
theorem C3_sudo_policy_eval :
    requires_sudo (strL "-S") Backend.apt = false
    ∧ requires_sudo (strL "-R") Backend.apt = false
    ∧ strL "install" ∈ sudo_required_commands Backend.apt
    ∧ strL "remove" ∈ sudo_required_commands Backend.apt
    ∧ requires_sudo (strL "-S") Backend.dnf = false
    ∧ strL "install" ∈ sudo_required_commands Backend.dnf
    ∧ requires_sudo (strL "-S") Backend.zypper = false
    ∧ strL "install" ∈ sudo_required_commands Backend.zypper
    ∧ dispatchCmd (strL "-S") Backend.apt [strL "git"]
        = [strL "apt", strL "install", strL "git"]
    ∧ requires_sudo (strL "-S") Backend.pacman = true
    ∧ dispatchCmd (strL "-S") Backend.pacman [strL "git"]
        = [strL "sudo", strL "pacman", strL "-S", strL "git"] := by
  decide

/-! ### The `lru_cache(maxsize=128)` memoization of `package_exists` -/

/-- A probed pair: (package name, backend). -/
abbrev PKey := Str × Backend

/-- State of the `functools.lru_cache(maxsize=128)` wrapper around
`package_exists`, plus an invocation log: `entries` is the cache in recency
order (most recently used first), `log` records in order each key whose
probe launched the external search process (a cache miss). -/
structure PCache where
  entries : List (PKey × PyValue)
  log : List PKey
  deriving DecidableEq, Repr

/-- The empty cache at the start of a run. -/
def emptyCache : PCache := ⟨[], []⟩

/-- The stored value for a key, scanning in recency order. -/
def findVal : List (PKey × PyValue) → PKey → Option PyValue
  | [], _ => none
  | e :: es, k => if e.1 = k then some e.2 else findVal es k

/-- One call of the memoized `package_exists` for key `k` under process
environment `env`: a hit returns the cached value and refreshes the key's
recency; a miss runs the external search (appended to the log), computes
`package_exists_run`, stores the result — whatever it is — at the front,
and drops the least recently used entry when the capacity 128 would be
exceeded. -/
def cacheStep (env : PKey → SubprocOutcome) (st : PCache) (k : PKey) : PCache :=
  match findVal st.entries k with
  | some v =>
    { st with entries := (k, v) :: st.entries.filter (fun e => !decide (e.1 = k)) }
  | none =>
    { entries := ((k, package_exists_run k.1 k.2 (env k)) :: st.entries).take 128,
      log := st.log ++ [k] }

/-- A run of memoized probe calls from a given cache state. -/
def runProbes (env : PKey → SubprocOutcome) (st : PCache) : List PKey → PCache
  | [] => st
  | k :: ks => runProbes env (cacheStep env st k) ks

/-- Number of occurrences of a key in a list of keys. -/
def countOcc (k : PKey) : List PKey → Nat
  | [] => 0
  | x :: xs => (if x = k then 1 else 0) + countOcc k xs

/-- The keys currently cached, in recency order. -/
def keysOf (st : PCache) : List PKey := st.entries.map Prod.fst

theorem countOcc_append (k : PKey) (a b : List PKey) :
    countOcc k (a ++ b) = countOcc k a + countOcc k b := by
  induction a with
  | nil => simp [countOcc]
  | cons x xs ih => simp [countOcc, ih]; omega

theorem findVal_none_iff (l : List (PKey × PyValue)) (k : PKey) :
    findVal l k = none ↔ k ∉ l.map Prod.fst := by
  induction l with
  | nil => simp [findVal]
  | cons e es ih =>
    by_cases he : e.1 = k
    · have hk : k ∈ (e :: es).map Prod.fst := by
        rw [List.map_cons, he]
        exact List.mem_cons_self k _
      simp only [findVal, if_pos he]
      constructor
      · intro h
        exact Option.noConfusion h
      · intro h
        exact absurd hk h
    · simp only [findVal, if_neg he, ih, List.map_cons, List.mem_cons]
      constructor
      · intro h hk
        rcases hk with hk | hk
        · exact he hk.symm
        · exact h hk
      · intro h hk
        exact h (Or.inr hk)

theorem findVal_some_mem (l : List (PKey × PyValue)) (k : PKey) (v : PyValue)
    (h : findVal l k = some v) : k ∈ l.map Prod.fst := by
  by_contra hk
  rw [← findVal_none_iff] at hk
  rw [h] at hk
  exact Option.noConfusion hk

/-- Behavior of a run of memoized probes while the number of distinct keys
cannot exceed the capacity: the cached key set only grows (no eviction),
keys stay distinct, and each key's external invocation count rises by one
exactly when the key is probed and was not already cached. -/
theorem runProbes_facts (env : PKey → SubprocOutcome) (allowed : List PKey)
    (hAle : allowed.length ≤ 128) :
    ∀ (sched : List PKey) (st : PCache),
      (keysOf st).Nodup → (∀ x ∈ keysOf st, x ∈ allowed) → (∀ x ∈ sched, x ∈ allowed) →
      ((keysOf (runProbes env st sched)).Nodup
        ∧ (∀ x ∈ keysOf (runProbes env st sched), x ∈ allowed))
      ∧ (∀ x, x ∈ keysOf (runProbes env st sched) ↔ x ∈ keysOf st ∨ x ∈ sched)
      ∧ ∀ k, countOcc k (runProbes env st sched).log
          = countOcc k st.log + (if k ∈ sched ∧ k ∉ keysOf st then 1 else 0) := by
  intro sched
  induction sched with
  | nil =>
    intro st h1 h2 _
    exact ⟨⟨h1, h2⟩, fun x => by simp [runProbes], fun k => by simp [runProbes]⟩
  | cons q qs ih =>
    intro st h1 h2 h3
    have hqA : q ∈ allowed := h3 q (List.mem_cons_self q qs)
    have hqsA : ∀ x ∈ qs, x ∈ allowed := fun x hx => h3 x (List.mem_cons_of_mem q hx)
    have hrun : runProbes env st (q :: qs) = runProbes env (cacheStep env st q) qs := rfl
    rcases hfv : findVal st.entries q with _ | v
    · -- miss: the key is inserted, its probe is logged, nothing is evicted
      have hqk : q ∉ keysOf st := (findVal_none_iff _ _).mp hfv
      have hnd' : (q :: keysOf st).Nodup := List.nodup_cons.mpr ⟨hqk, h1⟩
      have hsubset : ∀ x ∈ q :: keysOf st, x ∈ allowed := by
        intro x hx
        rcases List.mem_cons.mp hx with rfl | hx
        · exact hqA
        · exact h2 x hx
      have hlen : ((q, package_exists_run q.1 q.2 (env q)) :: st.entries).length ≤ 128 := by
        have hle := (hnd'.subperm hsubset).length_le
        simp only [List.length_cons, keysOf, List.length_map] at hle ⊢
        omega
      have hstep : cacheStep env st q =
          { entries := (q, package_exists_run q.1 q.2 (env q)) :: st.entries,
            log := st.log ++ [q] } := by
        simp [cacheStep, hfv, List.take_of_length_le hlen]
      have hkeys : keysOf (cacheStep env st q) = q :: keysOf st := by
        rw [hstep]; rfl
      obtain ⟨ha, hb, hc⟩ := ih (cacheStep env st q)
        (by rw [hkeys]; exact hnd') (by rw [hkeys]; exact hsubset) hqsA
      refine ⟨⟨ha.1, ha.2⟩, ?_, ?_⟩
      · intro x
        rw [hrun, hb x, hkeys]
        simp only [List.mem_cons]
        tauto
      · intro k
        have hck := hc k
        have hlog : (cacheStep env st q).log = st.log ++ [q] := by rw [hstep]
        have hq1 : countOcc k [q] = if q = k then 1 else 0 := by simp [countOcc]
        rw [hrun, hck, hkeys, hlog, countOcc_append, hq1]
        by_cases hkq : k = q
        · subst hkq
          simp [hqk]
        · have hqk' : ¬ q = k := fun h => hkq h.symm
          simp only [hqk', if_false, List.mem_cons]
          by_cases hks : k ∈ keysOf st
          · simp [hks, hkq]
          · simp [hks, hkq]
    · -- hit: no invocation, the key set is unchanged (up to recency order)
      have hqk : q ∈ keysOf st := findVal_some_mem _ _ _ hfv
      have hstep : cacheStep env st q =
          { st with entries := (q, v) :: st.entries.filter (fun e => !decide (e.1 = q)) } := by
        simp [cacheStep, hfv]
      have hkeys' : keysOf (cacheStep env st q)
          = q :: (st.entries.filter (fun e => !decide (e.1 = q))).map Prod.fst := by
        rw [hstep]; rfl
      have hfmem : ∀ x, x ∈ (st.entries.filter (fun e => !decide (e.1 = q))).map Prod.fst
          ↔ (x ∈ keysOf st ∧ x ≠ q) := by
        intro x
        unfold keysOf
        simp only [List.mem_map, List.mem_filter, Bool.not_eq_true', decide_eq_false_iff_not]
        constructor
        · rintro ⟨e, ⟨he, hne⟩, rfl⟩
          exact ⟨⟨e, he, rfl⟩, hne⟩
        · rintro ⟨⟨e, he, rfl⟩, hne⟩
          exact ⟨e, ⟨he, hne⟩, rfl⟩
      have hmemf : ∀ x, x ∈ keysOf (cacheStep env st q) ↔ x ∈ keysOf st := by
        intro x
        rw [hkeys', List.mem_cons, hfmem x]
        constructor
        · rintro (rfl | ⟨hx, _⟩)
          · exact hqk
          · exact hx
        · intro hx
          by_cases hxq : x = q
          · exact Or.inl hxq
          · exact Or.inr ⟨hx, hxq⟩
      have hnd' : (keysOf (cacheStep env st q)).Nodup := by
        rw [hkeys']
        refine List.nodup_cons.mpr ⟨?_, ?_⟩
        · intro hql
          exact ((hfmem q).mp hql).2 rfl
        · exact ((List.filter_sublist _).map Prod.fst).nodup h1
      obtain ⟨ha, hb, hc⟩ := ih (cacheStep env st q) hnd'
        (fun x hx => h2 x ((hmemf x).mp hx)) hqsA
      refine ⟨⟨ha.1, ha.2⟩, ?_, ?_⟩
      · intro x
        rw [hrun, hb x]
        simp only [List.mem_cons]
        constructor
        · rintro (hx | hx)
          · exact Or.inl ((hmemf x).mp hx)
          · exact Or.inr (Or.inr hx)
        · rintro (hx | rfl | hx)
          · exact Or.inl ((hmemf x).mpr hx)
          · exact Or.inl ((hmemf x).mpr hqk)
          · exact Or.inr hx
      · intro k
        have hck := hc k
        have hlog : (cacheStep env st q).log = st.log := by rw [hstep]
        rw [hrun, hck, hlog]
        congr 1
        by_cases hks : k ∈ keysOf st
        · simp [hks, (hmemf k).mpr hks]
        · have hks' : k ∉ keysOf (cacheStep env st q) := fun h => hks ((hmemf k).mp h)
          by_cases hkq : k = q
          · subst hkq; exact absurd hqk hks
          · simp [hks, hks', List.mem_cons, hkq]

/-- Claim C1 (counterexample): a timed-out probe returns `False` — the very
value a completed probe with the name absent returns (NotFound) — and the
`lru_cache` stores it: after a first timed-out probe of `("git", apt)` the
cache holds `False` for that pair, and probing it a second time launches no
second external process (the invocation log still counts 1). -/
theorem C1_counterexample :
    package_exists_run (strL "git") Backend.apt SubprocOutcome.timeout = PyValue.bool false
    ∧ package_exists_run (strL "git") Backend.apt (SubprocOutcome.ok (strL "") 0)
        = PyValue.bool false
    ∧ findVal (cacheStep (fun _ => SubprocOutcome.timeout) emptyCache
          (strL "git", Backend.apt)).entries (strL "git", Backend.apt)
        = some (PyValue.bool false)
    ∧ countOcc (strL "git", Backend.apt)
        (runProbes (fun _ => SubprocOutcome.timeout) emptyCache
          [(strL "git", Backend.apt), (strL "git", Backend.apt)]).log = 1 := by
  decide

theorem cacheStep_hit_log (env : PKey → SubprocOutcome) (st : PCache) (k : PKey) (v : PyValue)
    (h : findVal st.entries k = some v) : (cacheStep env st k).log = st.log := by
  simp [cacheStep, h]

/-- Claim C1 (amended): on timeout or subprocess failure the probe returns
`False`, indistinguishable from a NotFound result, and this value is
memoized like any other: probing an uncached pair under a failing
environment stores `False` in the cache and logs one invocation, and an
immediately repeated probe of the pair is a cache hit that launches no
process. -/
theorem C1_error_memoized (env : PKey → SubprocOutcome) (st : PCache) (k : PKey)
    (henv : env k = SubprocOutcome.timeout ∨ env k = SubprocOutcome.failed)
    (hmiss : findVal st.entries k = none) :
    findVal (cacheStep env st k).entries k = some (PyValue.bool false)
    ∧ (cacheStep env st k).log = st.log ++ [k]
    ∧ (cacheStep env (cacheStep env st k) k).log = (cacheStep env st k).log := by
  have hrun : package_exists_run k.1 k.2 (env k) = PyValue.bool false := by
    rcases henv with h | h <;> rw [h] <;> rfl
  have h1 : (cacheStep env st k).entries
      = ((k, PyValue.bool false) :: st.entries).take 128 := by
    simp [cacheStep, hmiss, hrun]
  have hhit : findVal (cacheStep env st k).entries k = some (PyValue.bool false) := by
    rw [h1, show (128 : Nat) = 127 + 1 from rfl, List.take_succ_cons]
    simp [findVal]
  refine ⟨hhit, ?_, ?_⟩
  · simp [cacheStep, hmiss]
  · exact cacheStep_hit_log env (cacheStep env st k) k (PyValue.bool false) hhit

/-- Witness for C1 (amended) at a concrete input. -/
theorem C1_error_memoized_witness :
    findVal (cacheStep (fun _ => SubprocOutcome.timeout) emptyCache
        (strL "firefox", Backend.snap)).entries (strL "firefox", Backend.snap)
      = some (PyValue.bool false)
    ∧ (cacheStep (fun _ => SubprocOutcome.timeout) emptyCache
        (strL "firefox", Backend.snap)).log = emptyCache.log ++ [(strL "firefox", Backend.snap)]
    ∧ (cacheStep (fun _ => SubprocOutcome.timeout)
        (cacheStep (fun _ => SubprocOutcome.timeout) emptyCache (strL "firefox", Backend.snap))
        (strL "firefox", Backend.snap)).log
      = (cacheStep (fun _ => SubprocOutcome.timeout) emptyCache
          (strL "firefox", Backend.snap)).log :=
  C1_error_memoized (fun _ => SubprocOutcome.timeout) emptyCache
    (strL "firefox", Backend.snap) (Or.inl rfl) rfl

/-- Claim C7 (amended): within one run, probing a pair any number of times
launches exactly one external process for it, provided the run probes at
most 128 distinct pairs (the `lru_cache` capacity); beyond that the LRU
eviction can re-launch, and an `Error` (False) first result is cached too,
so it never causes a second invocation either. -/
theorem C7_memoized_upto_capacity (env : PKey → SubprocOutcome) (sched : List PKey)
    (hcap : sched.dedup.length ≤ 128) (k : PKey) :
    countOcc k (runProbes env emptyCache sched).log = if k ∈ sched then 1 else 0 := by
  have h := (runProbes_facts env sched.dedup hcap sched emptyCache
    (by simp [keysOf, emptyCache])
    (by simp [keysOf, emptyCache])
    (fun x hx => List.mem_dedup.mpr hx)).2.2 k
  simpa [emptyCache, countOcc, keysOf] using h

/-- Witness for C7 (amended): probing the same pair twice launches one
process. -/
theorem C7_memoized_upto_capacity_witness :
    ([(strL "git", Backend.apt), (strL "git", Backend.apt)] :
        List PKey).dedup.length ≤ 128
    ∧ countOcc (strL "git", Backend.apt)
        (runProbes (fun _ => SubprocOutcome.ok (strL "git found") 0) emptyCache
          [(strL "git", Backend.apt), (strL "git", Backend.apt)]).log
      = if (strL "git", Backend.apt)
            ∈ [(strL "git", Backend.apt), (strL "git", Backend.apt)] then 1 else 0 :=
  ⟨by decide,
    C7_memoized_upto_capacity (fun _ => SubprocOutcome.ok (strL "git found") 0)
      [(strL "git", Backend.apt), (strL "git", Backend.apt)] (by decide)
      (strL "git", Backend.apt)⟩

/-- 129 distinct one-character package names, all probed against apt. -/
def manyKeys : List PKey := (List.range 129).map (fun i => ([Char.ofNat (100 + i)], Backend.apt))

set_option maxRecDepth 8000 in
/-- Claim C7 (counterexample): with 129 distinct pairs probed, the LRU
cache of capacity 128 evicts the first pair, so a schedule probing the
first pair, then the 128 others, then the first pair again, invokes the
external process twice for a pair probed twice in one run. -/
theorem C7_counterexample :
    countOcc ([Char.ofNat 100], Backend.apt)
        (manyKeys ++ [([Char.ofNat 100], Backend.apt)]) = 2
    ∧ countOcc ([Char.ofNat 100], Backend.apt)
        (runProbes (fun _ => SubprocOutcome.ok [] 0) emptyCache
          (manyKeys ++ [([Char.ofNat 100], Backend.apt)])).log = 2 := by
  constructor
  · decide
  · decide

/-! ### The comparison engine: `compare_packages` / `fetch_package_info` -/

/-- Outcome of the detail child invocation (`subprocess.run(..., timeout=15)`
in `fetch_package_info`): completion with captured stdout, a
`subprocess.TimeoutExpired` — the only exception the source catches there —
or any other exception raised by the invocation (e.g. a missing binary),
which propagates and kills the worker task. -/
inductive DetailOutcome where
  | ok (stdout : Str)
  | timeout
  | failed
  deriving DecidableEq, Repr

/-- Python truthiness of a `package_exists` result (`if not exists:`):
`False` and the empty string are falsy. -/
def pyFalsy : PyValue → Bool
  | .bool b => !b
  | .str s => s.isEmpty

/-- `dep_commands` in `compare_packages`: the detail-verb argument-vector
base of each backend. -/
def dep_commands (b : Backend) : List Str :=
  match b with
  | .pacman => [strL "pacman", strL "-Si"]
  | .paru => [strL "paru", strL "-Si"]
  | .yay => [strL "yay", strL "-Si"]
  | .apt => [strL "apt", strL "show"]
  | .dnf => [strL "dnf", strL "info"]
  | .zypper => [strL "zypper", strL "info"]
  | .snap => [strL "snap", strL "info"]
  | .flatpak => [strL "flatpak", strL "info"]

/-- Python dict assignment on an association list: overwrite in place when
the key exists, append otherwise. -/
def pySet (d : List (Str × Str)) (k v : Str) : List (Str × Str) :=
  if d.any (fun e => decide (e.1 = k)) then
    d.map (fun e => if e.1 = k then (k, v) else e)
  else d ++ [(k, v)]

/-- Field value `line.split(":", 1)[-1].strip()` when a colon is present,
else the last whitespace token `line.split()[-1]`. -/
def colonValOrLast (line : Str) : Str :=
  if ':' ∈ line then pyStrip (pySplitColon1 line) else (pySplitWs line).getLastD []

/-- Field value `line.split(":", 1)[-1].strip()` when a colon is present,
else `" ".join(line.split()[1:])`. -/
def colonValOrTail (line : Str) : Str :=
  if ':' ∈ line then pyStrip (pySplitColon1 line)
  else List.intercalate (strL " ") ((pySplitWs line).drop 1)

/-- One iteration of the parsing loop in `fetch_package_info`: strip the
line, skip empties, then set the recognized field following the
backend-specific rules — line-start matches for snap, substring tests for
the rest, tried in the source's elif order. `none` models a raised
exception: the snap size value is read with the partial indexing
`line.split(":", 1)[-1].strip().split()[0]`, which raises `IndexError`
when nothing follows the colon — only `TimeoutExpired` is caught in the
task, so the exception propagates and the worker dies. -/
def parseLine (mgr : Backend) (info : List (Str × Str)) (raw : Str) :
    Option (List (Str × Str)) :=
  let line := pyStrip raw
  if line.isEmpty then some info
  else if mgr = Backend.snap then
    if leadMatch (strL "name:") line then
      some (pySet info (strL "Name") (pyStrip (pySplitColon1 line)))
    else if leadMatch (strL "version:") line then
      some (pySet info (strL "Version") (pyStrip (pySplitColon1 line)))
    else if leadMatch (strL "installed:") line || leadMatch (strL "size:") line then
      match pySplitWs (pyStrip (pySplitColon1 line)) with
      | [] => none
      | t :: _ => some (pySet info (strL "Size") t)
    else if leadMatch (strL "summary:") line || leadMatch (strL "description:") line then
      some (pySet info (strL "Description") (pyStrip (pySplitColon1 line)))
    else if leadMatch (strL "depends:") line then
      some (pySet info (strL "Dependencies") (pyStrip (pySplitColon1 line)))
    else some info
  else
    if containsSub line (strL "Version") || containsSub line (strL "version") then
      some (pySet info (strL "Version") (colonValOrLast line))
    else if containsSub line (strL "Size") || containsSub line (strL "Installed-Size") then
      some (pySet info (strL "Size") (colonValOrLast line))
    else if containsSub line (strL "Description") then
      some (pySet info (strL "Description") (colonValOrTail line))
    else if containsSub line (strL "Depends") then
      some (pySet info (strL "Dependencies") (colonValOrTail line))
    else some info

/-- The parsing loop over the detail output's lines; `none` as soon as one
iteration raises. -/
def parseLines (mgr : Backend) : List Str → List (Str × Str) → Option (List (Str × Str))
  | [], info => some info
  | l :: ls, info =>
    match parseLine mgr info l with
    | none => none
    | some info2 => parseLines mgr ls info2

/-- The record computed by one `fetch_package_info(manager, package)` task,
or `none` when the task dies on an uncaught exception (so that
`comparison_data[package][manager]` is never assigned): a falsy probe
result records `{Error: Not found}` and stops; otherwise the detail verb
`dep_commands[manager] + [target]` runs (the flatpak canonical string
would be the target when the probe returned one, `package` otherwise) and
its outcome, supplied here by `det`, is parsed line by line; a timeout
records `{Error: Timeout}`, an output with no recognized field
`{Error: Data unavailable}`, and a raised invocation or a raised parse
iteration kills the task. -/
def fetchInfo (package : Str) (manager : Backend) (probeRes : PyValue)
    (det : DetailOutcome) : Option (List (Str × Str)) :=
  if pyFalsy probeRes then some [(strL "Error", strL "Not found")]
  else
    match det with
    | .timeout => some [(strL "Error", strL "Timeout")]
    | .failed => none
    | .ok out =>
      match parseLines manager (splitlines out) [] with
      | none => none
      | some info =>
        if info.isEmpty then some [(strL "Error", strL "Data unavailable")] else some info

/-- The record of one comparison cell under the search environment `envS`
and the detail environment `envD` (`none` when the worker task dies): the
task probes via the memoizable `package_exists` body and then fetches
details. -/
def cellOf (envS : Str → Backend → SubprocOutcome) (envD : Str → Backend → DetailOutcome)
    (q : Str × Backend) : Option (List (Str × Str)) :=
  fetchInfo q.1 q.2 (package_exists_run q.1 q.2 (envS q.1 q.2)) (envD q.1 q.2)

/-- Python dict assignment `comparison_data[package][manager] = info`:
overwrite in place when the manager key exists, append otherwise. -/
def insertCell (tbl : List (Backend × List (Str × Str))) (m : Backend)
    (r : List (Str × Str)) : List (Backend × List (Str × Str)) :=
  if tbl.any (fun e => decide (e.1 = m)) then
    tbl.map (fun e => if e.1 = m then (m, r) else e)
  else tbl ++ [(m, r)]

/-- The effect of one finished task on package `p`'s dict: a task of
another package leaves it untouched, a task of `p` whose cell computation
raised (the executor swallows the exception) assigns nothing — its row is
simply missing — and a task of `p` that completed inserts its record keyed
by its manager. -/
def compareStep (envS : Str → Backend → SubprocOutcome)
    (envD : Str → Backend → DetailOutcome) (p : Str)
    (tbl : List (Backend × List (Str × Str))) (q : Str × Backend) :
    List (Backend × List (Str × Str)) :=
  if q.1 = p then
    match cellOf envS envD q with
    | none => tbl
    | some r => insertCell tbl q.2 r
  else tbl

/-- The inner dict `comparison_data[p]` after the concurrent tasks ran to
completion in order `sched` (each submitted (package, backend) task occurs
once in `sched`): the dict starts empty and the tasks act on it in
completion order. Dict iteration order is insertion order — the task
completion order, not the submission (detection) order. -/
def compareTable (envS : Str → Backend → SubprocOutcome)
    (envD : Str → Backend → DetailOutcome)
    (sched : List (Str × Backend)) (p : Str) : List (Backend × List (Str × Str)) :=
  sched.foldl (compareStep envS envD p) []

/-- Row lookup by backend in a package's table. -/
def rowFor : List (Backend × List (Str × Str)) → Backend → Option (List (Str × Str))
  | [], _ => none
  | e :: es, m => if e.1 = m then some e.2 else rowFor es m

/-- The submission order of comparison tasks (`compare_packages`): for
every package in order, one task per backend in detection order. -/
def pairsOf : List Str → List Backend → List (Str × Backend)
  | [], _ => []
  | p :: ps, ms => ms.map (fun m => (p, m)) ++ pairsOf ps ms

theorem anyKey_iff {κ β : Type} [DecidableEq κ] (tbl : List (κ × β)) (m : κ) :
    (tbl.any (fun e => decide (e.1 = m)) = true) ↔ m ∈ tbl.map Prod.fst := by
  induction tbl with
  | nil => simp
  | cons e es ih =>
    rw [List.any_cons, List.map_cons, List.mem_cons, Bool.or_eq_true, ih, decide_eq_true_eq]
    constructor
    · rintro (h | h)
      · exact Or.inl h.symm
      · exact Or.inr h
    · rintro (h | h)
      · exact Or.inl h.symm
      · exact Or.inr h

theorem rowFor_of_mem (tbl : List (Backend × List (Str × Str))) (m : Backend)
    (r : List (Str × Str)) (hnd : (tbl.map Prod.fst).Nodup) (hmem : (m, r) ∈ tbl) :
    rowFor tbl m = some r := by
  induction tbl with
  | nil => simp at hmem
  | cons e es ih =>
    rw [List.map_cons, List.nodup_cons] at hnd
    rcases List.mem_cons.mp hmem with heq | hmem'
    · rw [rowFor, ← heq]
      simp
    · by_cases he : e.1 = m
      · exfalso
        apply hnd.1
        rw [he]
        exact List.mem_map.mpr ⟨(m, r), hmem', rfl⟩
      · rw [rowFor, if_neg he]
        exact ih hnd.2 hmem'

/-- The entry a finished task would contribute to the table: nothing when
its cell computation raised, its keyed record otherwise. -/
def rowEntry (envS : Str → Backend → SubprocOutcome)
    (envD : Str → Backend → DetailOutcome) (q : Str × Backend) :
    Option (Backend × List (Str × Str)) :=
  (cellOf envS envD q).map (fun r => (q.2, r))

theorem rowFor_eq_none (tbl : List (Backend × List (Str × Str))) (m : Backend)
    (h : m ∉ tbl.map Prod.fst) : rowFor tbl m = none := by
  induction tbl with
  | nil => rfl
  | cons e es ih =>
    rw [List.map_cons, List.mem_cons] at h
    push_neg at h
    rw [rowFor, if_neg (fun he => h.1 he.symm)]
    exact ih h.2

theorem rowEntry_keys_sub (envS : Str → Backend → SubprocOutcome)
    (envD : Str → Backend → DetailOutcome) :
    ∀ qs : List (Str × Backend),
      List.Sublist ((qs.filterMap (rowEntry envS envD)).map Prod.fst) (qs.map Prod.snd) := by
  intro qs
  induction qs with
  | nil => simp
  | cons q qs ih =>
    rcases hcell : cellOf envS envD q with _ | r
    · rw [List.filterMap_cons_none (by simp [rowEntry, hcell]), List.map_cons]
      exact ih.cons _
    · have hre : rowEntry envS envD q = some (q.2, r) := by
        simp [rowEntry, hcell]
      rw [List.filterMap_cons_some hre, List.map_cons, List.map_cons]
      exact ih.cons₂ _

theorem filterMap_length_of_some {α β : Type} (f : α → Option β) :
    ∀ l : List α, (∀ a ∈ l, (f a).isSome) → (l.filterMap f).length = l.length := by
  intro l
  induction l with
  | nil => intro _; rfl
  | cons a l ih =>
    intro h
    rcases hfa : f a with _ | b
    · have hs := h a (List.mem_cons_self a l)
      rw [hfa] at hs
      exact absurd hs (by simp)
    · rw [List.filterMap_cons_some hfa, List.length_cons, List.length_cons,
        ih (fun x hx => h x (List.mem_cons_of_mem a hx))]

theorem compareTable_foldl (envS : Str → Backend → SubprocOutcome)
    (envD : Str → Backend → DetailOutcome) (p : Str) :
    ∀ (qs : List (Str × Backend)) (tbl : List (Backend × List (Str × Str))),
      ((qs.filter (fun q => decide (q.1 = p))).map Prod.snd).Nodup →
      (∀ q ∈ qs, q.1 = p → q.2 ∉ tbl.map Prod.fst) →
      qs.foldl (compareStep envS envD p) tbl
        = tbl ++ (qs.filter (fun q => decide (q.1 = p))).filterMap (rowEntry envS envD) := by
  intro qs
  induction qs with
  | nil => intro tbl _ _; simp
  | cons q qs ih =>
    intro tbl hnd hdisj
    by_cases hq : q.1 = p
    · have hfilter : (q :: qs).filter (fun r => decide (r.1 = p))
          = q :: qs.filter (fun r => decide (r.1 = p)) := by
        simp [List.filter_cons, hq]
      rw [hfilter, List.map_cons, List.nodup_cons] at hnd
      rcases hcell : cellOf envS envD q with _ | r
      · -- the task raised: no assignment, no table entry
        have hstep : compareStep envS envD p tbl q = tbl := by
          rw [compareStep, if_pos hq, hcell]
        rw [List.foldl_cons, hstep,
          ih tbl hnd.2 (fun r hr hrp => hdisj r (List.mem_cons_of_mem q hr) hrp),
          hfilter, List.filterMap_cons_none (by simp [rowEntry, hcell])]
      · -- the task completed: its record is appended
        have hstep : compareStep envS envD p tbl q = insertCell tbl q.2 r := by
          rw [compareStep, if_pos hq, hcell]
        have hnotin : q.2 ∉ tbl.map Prod.fst := hdisj q (List.mem_cons_self q qs) hq
        have hins : insertCell tbl q.2 r = tbl ++ [(q.2, r)] := by
          rw [insertCell, if_neg]
          intro hany
          exact hnotin ((anyKey_iff tbl q.2).mp hany)
        have hdisj' : ∀ r2 ∈ qs, r2.1 = p →
            r2.2 ∉ (tbl ++ [(q.2, r)]).map Prod.fst := by
          intro r2 hr hrp hmem
          rw [List.map_append, List.mem_append] at hmem
          rcases hmem with hmem | hmem
          · exact hdisj r2 (List.mem_cons_of_mem q hr) hrp hmem
          · simp only [List.map_cons, List.map_nil, List.mem_singleton] at hmem
            apply hnd.1
            rw [← hmem]
            exact List.mem_map.mpr ⟨r2, List.mem_filter.mpr ⟨hr, by simp [hrp]⟩, rfl⟩
        have hre : rowEntry envS envD q = some (q.2, r) := by
          simp [rowEntry, hcell]
        rw [List.foldl_cons, hstep, hins, ih (tbl ++ [(q.2, r)]) hnd.2 hdisj',
          hfilter, List.filterMap_cons_some hre, List.append_assoc]
        rfl
    · have hfilter : (q :: qs).filter (fun r => decide (r.1 = p))
          = qs.filter (fun r => decide (r.1 = p)) := by
        simp [List.filter_cons, hq]
      rw [hfilter] at hnd
      have hstep : compareStep envS envD p tbl q = tbl := by
        rw [compareStep, if_neg hq]
      rw [List.foldl_cons, hstep,
        ih tbl hnd (fun r hr hrp => hdisj r (List.mem_cons_of_mem q hr) hrp), hfilter]

theorem blockFilter (ms : List Backend) (a p : Str) :
    (ms.map (fun m => (a, m))).filter (fun q => decide (q.1 = p))
      = if a = p then ms.map (fun m => (p, m)) else [] := by
  induction ms with
  | nil => simp
  | cons m ms ih =>
    by_cases hap : a = p
    · subst hap
      simp [List.filter_cons, ih]
    · simp [List.filter_cons, hap, ih]

theorem pairsOf_mem (ps : List Str) (ms : List Backend) (p : Str) (m : Backend) :
    (p, m) ∈ pairsOf ps ms ↔ p ∈ ps ∧ m ∈ ms := by
  induction ps with
  | nil => simp [pairsOf]
  | cons a ps ih =>
    simp only [pairsOf, List.mem_append, ih, List.mem_cons, List.mem_map]
    constructor
    · rintro (⟨m2, hm2, heq⟩ | ⟨hp, hm⟩)
      · have hpair := Prod.mk.inj heq
        exact ⟨Or.inl hpair.1.symm, hpair.2 ▸ hm2⟩
      · exact ⟨Or.inr hp, hm⟩
    · rintro ⟨hp | hp, hm⟩
      · exact Or.inl ⟨m, hm, by rw [hp]⟩
      · exact Or.inr ⟨hp, hm⟩

theorem pairsOf_filter (ps : List Str) (ms : List Backend) (p : Str)
    (hnd : ps.Nodup) (hp : p ∈ ps) :
    (pairsOf ps ms).filter (fun q => decide (q.1 = p)) = ms.map (fun m => (p, m)) := by
  induction ps with
  | nil => simp at hp
  | cons a ps ih =>
    rw [List.nodup_cons] at hnd
    rw [pairsOf, List.filter_append, blockFilter]
    rcases List.mem_cons.mp hp with rfl | hp'
    · rw [if_pos rfl]
      have hzero : (pairsOf ps ms).filter (fun q => decide (q.1 = p)) = [] := by
        rw [List.filter_eq_nil_iff]
        intro q hq
        simp only [decide_eq_true_eq]
        intro hqp
        apply hnd.1
        have hq2 : (q.1, q.2) ∈ pairsOf ps ms := by rw [Prod.mk.eta]; exact hq
        exact hqp ▸ ((pairsOf_mem ps ms q.1 q.2).mp hq2).1
      rw [hzero, List.append_nil]
    · have hap : ¬ a = p := fun h => hnd.1 (h ▸ hp')
      rw [if_neg hap, List.nil_append]
      exact ih hnd.2 hp'

/-- Structure of one package's table under any task completion order
`sched` that is a permutation of the submitted tasks: the rows are exactly
the entries of the completed `p`-tasks of `sched` in completion order, a
backend's row holds its own cell record exactly when its task finished
(and is missing when the task died), and when every backend's task
finished the table has exactly one row per backend. -/
theorem compareTable_rows (envS : Str → Backend → SubprocOutcome)
    (envD : Str → Backend → DetailOutcome) (ps : List Str) (ms : List Backend)
    (sched : List (Str × Backend)) (p : Str)
    (hps : ps.Nodup) (hms : ms.Nodup) (hperm : sched.Perm (pairsOf ps ms)) (hp : p ∈ ps) :
    compareTable envS envD sched p
      = (sched.filter (fun q => decide (q.1 = p))).filterMap (rowEntry envS envD)
    ∧ (∀ m ∈ ms, rowFor (compareTable envS envD sched p) m = cellOf envS envD (p, m))
    ∧ ((∀ m ∈ ms, (cellOf envS envD (p, m)).isSome) →
        (compareTable envS envD sched p).length = ms.length) := by
  have hfp : (sched.filter (fun q => decide (q.1 = p))).Perm (ms.map (fun m => (p, m))) := by
    have h := hperm.filter (fun q => decide (q.1 = p))
    rwa [pairsOf_filter ps ms p hps hp] at h
  have hsnd : ((sched.filter (fun q => decide (q.1 = p))).map Prod.snd).Perm ms := by
    have h := hfp.map Prod.snd
    simpa [List.map_map, Function.comp] using h
  have hndsnd : ((sched.filter (fun q => decide (q.1 = p))).map Prod.snd).Nodup :=
    hsnd.nodup_iff.mpr hms
  have heq : compareTable envS envD sched p
      = (sched.filter (fun q => decide (q.1 = p))).filterMap (rowEntry envS envD) := by
    rw [compareTable, compareTable_foldl envS envD p sched [] hndsnd (by simp)]
    simp
  have hkeysnd : ((compareTable envS envD sched p).map Prod.fst).Nodup := by
    rw [heq]
    exact (rowEntry_keys_sub envS envD _).nodup hndsnd
  have hqshape : ∀ q ∈ sched.filter (fun q => decide (q.1 = p)), q = (p, q.2) := by
    intro q hq
    have hq1 : q.1 = p := by simpa using (List.mem_filter.mp hq).2
    rw [← hq1]
  refine ⟨heq, ?_, ?_⟩
  · intro m hm
    rcases hcell : cellOf envS envD (p, m) with _ | r
    · -- the task for (p, m) died: its row is missing
      apply rowFor_eq_none
      intro hmem
      rw [heq] at hmem
      obtain ⟨e, he, hfst⟩ := List.mem_map.mp hmem
      obtain ⟨q, hqf, hq⟩ := List.mem_filterMap.mp he
      rcases hc2 : cellOf envS envD q with _ | r2
      · rw [rowEntry, hc2] at hq
        exact Option.noConfusion hq
      · rw [rowEntry, hc2, Option.map_some'] at hq
        have he2 : e = (q.2, r2) := (Option.some.inj hq).symm
        have hq2m : q.2 = m := by
          rw [he2] at hfst
          exact hfst
        have hqeq : q = (p, m) := by
          rw [← hq2m]
          exact hqshape q hqf
        rw [hqeq] at hc2
        rw [hc2] at hcell
        exact Option.noConfusion hcell
    · -- the task for (p, m) completed: its row holds its record
      have hmemsched : (p, m) ∈ sched :=
        hperm.mem_iff.mpr ((pairsOf_mem ps ms p m).mpr ⟨hp, hm⟩)
      have hmemf : (p, m) ∈ sched.filter (fun q => decide (q.1 = p)) :=
        List.mem_filter.mpr ⟨hmemsched, by simp⟩
      have hmemrow : (m, r) ∈ compareTable envS envD sched p := by
        rw [heq]
        exact List.mem_filterMap.mpr ⟨(p, m), hmemf, by simp [rowEntry, hcell]⟩
      exact rowFor_of_mem _ _ _ hkeysnd hmemrow
  · intro hall
    have hflen : (sched.filter (fun q => decide (q.1 = p))).length = ms.length := by
      have h1 := hsnd.length_eq
      rwa [List.length_map] at h1
    have hsome : ∀ q ∈ sched.filter (fun q => decide (q.1 = p)),
        (rowEntry envS envD q).isSome := by
      intro q hq
      have hmemp : q ∈ sched := (List.mem_filter.mp hq).1
      have hq2 : q.2 ∈ ms := by
        have hmem := hperm.mem_iff.mp hmemp
        exact ((pairsOf_mem ps ms q.1 q.2).mp (by rwa [Prod.mk.eta])).2
      have hqeq : q = (p, q.2) := hqshape q hq
      have hs := hall q.2 hq2
      rcases hcell : cellOf envS envD (p, q.2) with _ | r
      · rw [hcell] at hs
        exact absurd hs (by simp)
      · rw [rowEntry, hqeq, hcell]
        simp
    rw [heq, filterMap_length_of_some (rowEntry envS envD) _ hsome, hflen]

/-- Claim C4 (amended): for any completion order of the concurrent queries
(a permutation of the submitted (package, backend) tasks), each backend
whose task completes contributes exactly one row — `{Error: Not found}`
when its probe is falsy — so the table has exactly one row per backend
whenever every task completes; but (i) a task that dies on an uncaught
exception (snap's `split()[0]` IndexError on an empty `installed:`/`size:`
value, or a raised detail invocation) is silently swallowed by the
executor and its row is dropped, and (ii) the rows appear in task
completion (dict insertion) order, which equals backend detection order
only when completions happen in submission order. -/
theorem C4_row_per_backend (envS : Str → Backend → SubprocOutcome)
    (envD : Str → Backend → DetailOutcome) (ps : List Str) (ms : List Backend)
    (sched : List (Str × Backend)) (p : Str)
    (hps : ps.Nodup) (hms : ms.Nodup) (hperm : sched.Perm (pairsOf ps ms)) (hp : p ∈ ps) :
    (∀ m ∈ ms, rowFor (compareTable envS envD sched p) m = cellOf envS envD (p, m))
    ∧ ((∀ m ∈ ms, (cellOf envS envD (p, m)).isSome) →
        (compareTable envS envD sched p).length = ms.length)
    ∧ (∀ m ∈ ms, pyFalsy (package_exists_run p m (envS p m)) = true →
        rowFor (compareTable envS envD sched p) m
          = some [(strL "Error", strL "Not found")])
    ∧ compareTable envS envD sched p
        = (sched.filter (fun q => decide (q.1 = p))).filterMap (rowEntry envS envD) := by
  obtain ⟨heq, hrow, hlen⟩ := compareTable_rows envS envD ps ms sched p hps hms hperm hp
  refine ⟨hrow, hlen, ?_, heq⟩
  intro m hm hfal
  rw [hrow m hm]
  simp [cellOf, fetchInfo, hfal]

/-- Witness for C4 (amended) at a concrete input. -/
theorem C4_row_per_backend_witness :
    (∀ m ∈ [Backend.dnf, Backend.apt],
        rowFor (compareTable (fun _ _ => SubprocOutcome.ok [] 0)
            (fun _ _ => DetailOutcome.timeout)
            (pairsOf [strL "big"] [Backend.dnf, Backend.apt]) (strL "big")) m
          = cellOf (fun _ _ => SubprocOutcome.ok [] 0)
              (fun _ _ => DetailOutcome.timeout) (strL "big", m))
    ∧ ((∀ m ∈ [Backend.dnf, Backend.apt],
          (cellOf (fun _ _ => SubprocOutcome.ok [] 0)
            (fun _ _ => DetailOutcome.timeout) (strL "big", m)).isSome) →
        (compareTable (fun _ _ => SubprocOutcome.ok [] 0) (fun _ _ => DetailOutcome.timeout)
            (pairsOf [strL "big"] [Backend.dnf, Backend.apt]) (strL "big")).length
          = [Backend.dnf, Backend.apt].length)
    ∧ (∀ m ∈ [Backend.dnf, Backend.apt],
        pyFalsy (package_exists_run (strL "big") m
            ((fun _ _ => SubprocOutcome.ok [] 0) (strL "big") m)) = true →
        rowFor (compareTable (fun _ _ => SubprocOutcome.ok [] 0)
            (fun _ _ => DetailOutcome.timeout)
            (pairsOf [strL "big"] [Backend.dnf, Backend.apt]) (strL "big")) m
          = some [(strL "Error", strL "Not found")])
    ∧ compareTable (fun _ _ => SubprocOutcome.ok [] 0) (fun _ _ => DetailOutcome.timeout)
          (pairsOf [strL "big"] [Backend.dnf, Backend.apt]) (strL "big")
        = ((pairsOf [strL "big"] [Backend.dnf, Backend.apt]).filter
            (fun q => decide (q.1 = strL "big"))).filterMap
            (rowEntry (fun _ _ => SubprocOutcome.ok [] 0)
              (fun _ _ => DetailOutcome.timeout)) :=
  C4_row_per_backend (fun _ _ => SubprocOutcome.ok [] 0) (fun _ _ => DetailOutcome.timeout)
    [strL "big"] [Backend.dnf, Backend.apt]
    (pairsOf [strL "big"] [Backend.dnf, Backend.apt]) (strL "big")
    (by decide) (by decide) (List.Perm.refl _) (by decide)

/-- Claim C4 (counterexample): two refutations at concrete inputs. With
detection order `[dnf, apt]` there is a completion order — apt's task
finishing first — under which the rows come out `[apt, dnf]`: rows follow
completion order, not detection order. And comparing `big` over the single
backend snap whose detail output is the line `installed:` (empty value),
the worker dies on the `split()[0]` IndexError and the table ends up with
no row at all — a backend passed to compare is omitted instead of
contributing a row. -/
theorem C4_counterexample :
    ([(strL "big", Backend.apt), (strL "big", Backend.dnf)] : List (Str × Backend)).Perm
        (pairsOf [strL "big"] [Backend.dnf, Backend.apt])
    ∧ (compareTable (fun _ _ => SubprocOutcome.ok [] 0) (fun _ _ => DetailOutcome.timeout)
          [(strL "big", Backend.apt), (strL "big", Backend.dnf)] (strL "big")).map Prod.fst
        = [Backend.apt, Backend.dnf]
    ∧ [Backend.apt, Backend.dnf] ≠ [Backend.dnf, Backend.apt]
    ∧ compareTable (fun _ _ => SubprocOutcome.ok (strL "big 1.0") 0)
        (fun _ _ => DetailOutcome.ok (strL "installed:"))
        (pairsOf [strL "big"] [Backend.snap]) (strL "big") = [] := by
  refine ⟨by decide, by decide, by decide, by decide⟩

/-- Claim C8 (counterexample): the claim's universal — under a timeout for
one pair, every sibling backend's cell is still computed and rendered
normally — fails at a concrete input: comparing `big-pkg` across
`[dnf, snap]` with dnf's detail call timing out and snap's detail output
being the line `installed:` (empty value), the dnf row is
`{Error: Timeout}` but the snap worker dies on the `split()[0]` IndexError
and the snap row is missing from the table even though its task was
submitted. -/
theorem C8_counterexample :
    (strL "big-pkg", Backend.snap) ∈ pairsOf [strL "big-pkg"] [Backend.dnf, Backend.snap]
    ∧ rowFor (compareTable (fun _ _ => SubprocOutcome.ok (strL "big-pkg 1.0") 0)
        (fun _ m => if m = Backend.dnf then DetailOutcome.timeout
          else DetailOutcome.ok (strL "installed:"))
        (pairsOf [strL "big-pkg"] [Backend.dnf, Backend.snap]) (strL "big-pkg")) Backend.dnf
      = some [(strL "Error", strL "Timeout")]
    ∧ rowFor (compareTable (fun _ _ => SubprocOutcome.ok (strL "big-pkg 1.0") 0)
        (fun _ m => if m = Backend.dnf then DetailOutcome.timeout
          else DetailOutcome.ok (strL "installed:"))
        (pairsOf [strL "big-pkg"] [Backend.dnf, Backend.snap]) (strL "big-pkg")) Backend.snap
      = none := by
  refine ⟨by decide, by decide, by decide⟩

/-- Claim C8 (amended): a detail-query timeout for one (name, backend)
pair yields `{Error: Timeout}` for that cell only and does not abort or
alter the results of sibling queries: every sibling backend's row is
determined by that sibling pair's own outcomes alone — its own record when
its own task completes, a missing row when its own task dies — unaffected
by the timed-out pair. -/
theorem C8_timeout_isolated (envS : Str → Backend → SubprocOutcome)
    (envD : Str → Backend → DetailOutcome) (ps : List Str) (ms : List Backend)
    (sched : List (Str × Backend)) (p : Str) (m : Backend)
    (hps : ps.Nodup) (hms : ms.Nodup) (hperm : sched.Perm (pairsOf ps ms))
    (hp : p ∈ ps) (hm : m ∈ ms)
    (htimeout : envD p m = DetailOutcome.timeout)
    (hfound : pyFalsy (package_exists_run p m (envS p m)) = false) :
    rowFor (compareTable envS envD sched p) m = some [(strL "Error", strL "Timeout")]
    ∧ ∀ m2 ∈ ms, m2 ≠ m →
        rowFor (compareTable envS envD sched p) m2
          = fetchInfo p m2 (package_exists_run p m2 (envS p m2)) (envD p m2) := by
  obtain ⟨-, hrow, -⟩ := compareTable_rows envS envD ps ms sched p hps hms hperm hp
  constructor
  · rw [hrow m hm]
    simp [cellOf, fetchInfo, hfound, htimeout]
  · intro m2 hm2 _
    rw [hrow m2 hm2]
    rfl

/-- Witness for C8 (amended) at the specification's own scenario:
comparing `big-pkg` across `[dnf, apt]` where dnf's detail call times out —
the dnf row is `{Error: Timeout}`, the apt row is its own
environment-determined record. -/
theorem C8_timeout_isolated_witness :
    rowFor (compareTable (fun _ _ => SubprocOutcome.ok (strL "big-pkg 1.0") 0)
        (fun _ m => if m = Backend.dnf then DetailOutcome.timeout
          else DetailOutcome.ok (strL "Version: 1.2"))
        (pairsOf [strL "big-pkg"] [Backend.dnf, Backend.apt]) (strL "big-pkg")) Backend.dnf
      = some [(strL "Error", strL "Timeout")]
    ∧ ∀ m2 ∈ [Backend.dnf, Backend.apt], m2 ≠ Backend.dnf →
        rowFor (compareTable (fun _ _ => SubprocOutcome.ok (strL "big-pkg 1.0") 0)
            (fun _ m => if m = Backend.dnf then DetailOutcome.timeout
              else DetailOutcome.ok (strL "Version: 1.2"))
            (pairsOf [strL "big-pkg"] [Backend.dnf, Backend.apt]) (strL "big-pkg")) m2
          = fetchInfo (strL "big-pkg") m2
              (package_exists_run (strL "big-pkg") m2
                (SubprocOutcome.ok (strL "big-pkg 1.0") 0))
              ((fun _ m => if m = Backend.dnf then DetailOutcome.timeout
                else DetailOutcome.ok (strL "Version: 1.2")) (strL "big-pkg") m2) :=
  C8_timeout_isolated (fun _ _ => SubprocOutcome.ok (strL "big-pkg 1.0") 0)
    (fun _ m => if m = Backend.dnf then DetailOutcome.timeout
      else DetailOutcome.ok (strL "Version: 1.2"))
    [strL "big-pkg"] [Backend.dnf, Backend.apt]
    (pairsOf [strL "big-pkg"] [Backend.dnf, Backend.apt]) (strL "big-pkg") Backend.dnf
    (by decide) (by decide) (List.Perm.refl _) (by decide) (by decide) rfl (by decide)

/-! ### The repository resolver: `select_repository` -/

/-- Accumulator of `select_repository`'s probing loops: the
`flatpak_mismatches` dict, the `valid_options` dict (kept as its key list
in first-hit order; only membership is consumed), and install mode's
`available_packages` list. -/
structure RState where
  mismatches : List (Str × Str)
  valids : List Backend
  avail : List Str
  deriving DecidableEq, Repr

/-- One inner-loop iteration of `select_repository` for `p` under manager
`m`: a string result under flatpak differing from the package records a
mismatch; a result that `is True` marks the manager valid and, in install
mode, appends the package (once) to the available list; anything else —
`False`, or a string that is no flatpak mismatch — changes nothing. -/
def probePkg (probe : Str → Backend → PyValue) (installMode : Bool) (m : Backend)
    (st : RState) (p : Str) : RState :=
  match probe p m with
  | PyValue.str c =>
    if m = Backend.flatpak ∧ c ≠ p then { st with mismatches := pySet st.mismatches p c }
    else st
  | PyValue.bool b =>
    if b then
      { st with
        valids := if m ∈ st.valids then st.valids else st.valids ++ [m],
        avail := if installMode ∧ p ∉ st.avail then st.avail ++ [p] else st.avail }
    else st

/-- The probing phase of `select_repository`: every manager in detection
order, and under it every requested package in order. -/
def resolveScan (probe : Str → Backend → PyValue) (installMode : Bool)
    (packages : List Str) (repoOrder : List Backend) : RState :=
  repoOrder.foldl (fun st m => packages.foldl (probePkg probe installMode m) st)
    ⟨[], [], []⟩

/-- Whether the flatpak-mismatch note is printed before the selection
prompt: only when mismatches were recorded AND install mode is on. -/
def mismatchNoteShown (st : RState) (installMode : Bool) : Bool :=
  !st.mismatches.isEmpty && installMode

/-- The outcome of `select_repository`: `none` models the `(None, [])`
early return when no repository qualified; otherwise the numbered options
are the detected repositories in detection order filtered to the valid
ones, paired with the packages a selection would return (the available
subset in install mode, all requested packages otherwise). -/
def selectOptions (probe : Str → Backend → PyValue) (installMode : Bool)
    (packages : List Str) (repoOrder : List Backend) :
    Option (List Backend × List Str) :=
  if (resolveScan probe installMode packages repoOrder).valids.isEmpty then none
  else some
    (repoOrder.filter
      (fun m => decide (m ∈ (resolveScan probe installMode packages repoOrder).valids)),
    if installMode then (resolveScan probe installMode packages repoOrder).avail
    else packages)

/-- Coverage in the specification's sense: a probe value counting as Found
(`True`) or FoundAs (any canonical string). -/
def specHit (v : PyValue) : Bool :=
  match v with
  | .bool b => b
  | .str _ => true

/-- The resolver's probe composed with the `package_exists` body under a
process environment. -/
def composedProbe (env : Str → Backend → SubprocOutcome) (p : Str) (b : Backend) : PyValue :=
  package_exists_run p b (env p b)

theorem pyAssoc_append_of_not_mem (d l : List (Str × Str)) (k : Str)
    (h : k ∉ d.map Prod.fst) : pyAssoc (d ++ l) k = pyAssoc l k := by
  induction d with
  | nil => rfl
  | cons e es ih =>
    rw [List.map_cons, List.mem_cons] at h
    push_neg at h
    rw [List.cons_append, pyAssoc, if_neg (fun he => h.1 he.symm)]
    exact ih h.2

theorem pySet_lookup_self (d : List (Str × Str)) (k v : Str) :
    pyAssoc (pySet d k v) k = some v := by
  rw [pySet]
  by_cases hany : d.any (fun e => decide (e.1 = k)) = true
  · rw [if_pos hany]
    have hmem := (anyKey_iff d k).mp hany
    clear hany
    induction d with
    | nil => simp at hmem
    | cons e es ih =>
      by_cases he : e.1 = k
      · simp [pyAssoc, he]
      · simp only [List.map_cons, if_neg he]
        rw [pyAssoc, if_neg he]
        rw [List.map_cons, List.mem_cons] at hmem
        rcases hmem with hmem | hmem
        · exact absurd hmem.symm he
        · exact ih hmem
  · rw [if_neg hany]
    have hnm : k ∉ d.map Prod.fst := fun h => hany ((anyKey_iff d k).mpr h)
    rw [pyAssoc_append_of_not_mem d _ k hnm, pyAssoc, if_pos rfl]

theorem pyAssoc_append_single_other (d : List (Str × Str)) (k v k2 : Str) (hne : ¬ k = k2) :
    pyAssoc (d ++ [(k, v)]) k2 = pyAssoc d k2 := by
  induction d with
  | nil =>
    rw [List.nil_append]
    simp [pyAssoc, hne]
  | cons e es ih =>
    rw [List.cons_append, pyAssoc, pyAssoc]
    by_cases he : e.1 = k2
    · rw [if_pos he, if_pos he]
    · rw [if_neg he, if_neg he]
      exact ih

theorem pySet_lookup_other (d : List (Str × Str)) (k v k2 : Str) (hne : ¬ k = k2) :
    pyAssoc (pySet d k v) k2 = pyAssoc d k2 := by
  rw [pySet]
  by_cases hany : d.any (fun e => decide (e.1 = k)) = true
  · rw [if_pos hany]
    clear hany
    induction d with
    | nil => rfl
    | cons e es ih =>
      by_cases he : e.1 = k
      · rw [List.map_cons, if_pos he, pyAssoc, pyAssoc, if_neg hne, if_neg (he ▸ hne)]
        exact ih
      · rw [List.map_cons, if_neg he, pyAssoc, pyAssoc]
        by_cases he2 : e.1 = k2
        · rw [if_pos he2, if_pos he2]
        · rw [if_neg he2, if_neg he2]
          exact ih
  · rw [if_neg hany]
    exact pyAssoc_append_single_other d k v k2 hne

theorem probePkg_fold_valids (probe : Str → Backend → PyValue) (installMode : Bool)
    (m : Backend) :
    ∀ (ps : List Str) (st : RState) (m2 : Backend),
      m2 ∈ (ps.foldl (probePkg probe installMode m) st).valids
        ↔ m2 ∈ st.valids ∨ (m2 = m ∧ ∃ p ∈ ps, probe p m = PyValue.bool true) := by
  intro ps
  induction ps with
  | nil =>
    intro st m2
    simp
  | cons p ps ih =>
    intro st m2
    rw [List.foldl_cons, ih]
    have hstep : (probePkg probe installMode m st p).valids
        = if probe p m = PyValue.bool true
          then (if m ∈ st.valids then st.valids else st.valids ++ [m])
          else st.valids := by
      rcases hpm : probe p m with b | c
      · cases b
        · simp [probePkg, hpm]
        · simp [probePkg, hpm]
      · simp only [probePkg, hpm]
        by_cases hmf : m = Backend.flatpak ∧ c ≠ p
        · simp [hmf]
        · simp [hmf]
    have hmem : m2 ∈ (probePkg probe installMode m st p).valids
        ↔ m2 ∈ st.valids ∨ (m2 = m ∧ probe p m = PyValue.bool true) := by
      rw [hstep]
      by_cases hpt : probe p m = PyValue.bool true
      · rw [if_pos hpt]
        by_cases hmv : m ∈ st.valids
        · rw [if_pos hmv]
          constructor
          · exact Or.inl
          · rintro (h | ⟨rfl, _⟩)
            · exact h
            · exact hmv
        · rw [if_neg hmv, List.mem_append, List.mem_singleton]
          constructor
          · rintro (h | rfl)
            · exact Or.inl h
            · exact Or.inr ⟨rfl, hpt⟩
          · rintro (h | ⟨rfl, _⟩)
            · exact Or.inl h
            · exact Or.inr rfl
      · rw [if_neg hpt]
        constructor
        · exact Or.inl
        · rintro (h | ⟨_, hc⟩)
          · exact h
          · exact absurd hc hpt
    rw [hmem, List.exists_mem_cons_iff]
    tauto

theorem resolveScan_valids (probe : Str → Backend → PyValue) (installMode : Bool)
    (packages : List Str) (repoOrder : List Backend) (m2 : Backend) :
    m2 ∈ (resolveScan probe installMode packages repoOrder).valids
      ↔ m2 ∈ repoOrder ∧ ∃ p ∈ packages, probe p m2 = PyValue.bool true := by
  have hfold : ∀ (rs : List Backend) (st : RState),
      m2 ∈ (rs.foldl (fun st m => packages.foldl (probePkg probe installMode m) st) st).valids
        ↔ m2 ∈ st.valids ∨ (m2 ∈ rs ∧ ∃ p ∈ packages, probe p m2 = PyValue.bool true) := by
    intro rs
    induction rs with
    | nil =>
      intro st
      simp
    | cons r rs ih =>
      intro st
      rw [List.foldl_cons, ih, probePkg_fold_valids]
      simp only [List.mem_cons]
      constructor
      · rintro ((h | ⟨rfl, hp⟩) | ⟨hr, hp⟩)
        · exact Or.inl h
        · exact Or.inr ⟨Or.inl rfl, hp⟩
        · exact Or.inr ⟨Or.inr hr, hp⟩
      · rintro (h | ⟨rfl | hr, hp⟩)
        · exact Or.inl (Or.inl h)
        · exact Or.inl (Or.inr ⟨rfl, hp⟩)
        · exact Or.inr ⟨hr, hp⟩
  rw [resolveScan, hfold]
  simp

theorem probePkg_mismatch_lookup (probe : Str → Backend → PyValue) (installMode : Bool)
    (m : Backend) (st : RState) (p2 p : Str) (hne : ¬ p2 = p) :
    pyAssoc (probePkg probe installMode m st p2).mismatches p = pyAssoc st.mismatches p := by
  rcases hpm : probe p2 m with b | c
  · cases b <;> simp [probePkg, hpm]
  · simp only [probePkg, hpm]
    by_cases hg : m = Backend.flatpak ∧ c ≠ p2
    · rw [if_pos hg]
      exact pySet_lookup_other st.mismatches p2 c p hne
    · rw [if_neg hg]

theorem probePkg_fold_mismatch_other (probe : Str → Backend → PyValue) (installMode : Bool)
    (m : Backend) :
    ∀ (ps : List Str) (st : RState) (p : Str), p ∉ ps →
      pyAssoc ((ps.foldl (probePkg probe installMode m) st)).mismatches p
        = pyAssoc st.mismatches p := by
  intro ps
  induction ps with
  | nil =>
    intro st p _
    rfl
  | cons p2 ps ih =>
    intro st p hp
    rw [List.mem_cons] at hp
    push_neg at hp
    rw [List.foldl_cons, ih _ p hp.2,
      probePkg_mismatch_lookup probe installMode m st p2 p (fun h => hp.1 h.symm)]

theorem probePkg_fold_mismatch (probe : Str → Backend → PyValue) (installMode : Bool) :
    ∀ (ps : List Str) (st : RState) (p c : Str),
    probe p Backend.flatpak = PyValue.str c → c ≠ p → p ∈ ps →
      pyAssoc ((ps.foldl (probePkg probe installMode Backend.flatpak) st)).mismatches p
        = some c := by
  intro ps
  induction ps with
  | nil =>
    intro st p c _ _ hp
    simp at hp
  | cons p2 ps ih =>
    intro st p c hstr hcp hp
    by_cases hps : p ∈ ps
    · rw [List.foldl_cons]
      exact ih _ p c hstr hcp hps
    · have hp2 : p2 = p := by
        rcases List.mem_cons.mp hp with h | h
        · exact h.symm
        · exact absurd h hps
      subst hp2
      rw [List.foldl_cons,
        probePkg_fold_mismatch_other probe installMode Backend.flatpak ps _ p2 hps]
      simp only [probePkg, hstr]
      rw [if_pos ⟨trivial, hcp⟩]
      exact pySet_lookup_self st.mismatches p2 c

theorem probePkg_fold_mismatch_nonfl (probe : Str → Backend → PyValue) (installMode : Bool)
    (m : Backend) (hm : ¬ m = Backend.flatpak) :
    ∀ (ps : List Str) (st : RState),
      (ps.foldl (probePkg probe installMode m) st).mismatches = st.mismatches := by
  intro ps
  induction ps with
  | nil =>
    intro st
    rfl
  | cons p2 ps ih =>
    intro st
    rw [List.foldl_cons, ih]
    rcases hpm : probe p2 m with b | c
    · cases b <;> simp [probePkg, hpm]
    · simp only [probePkg, hpm]
      rw [if_neg (fun h => hm h.1)]

theorem resolveScan_mismatch (probe : Str → Backend → PyValue) (installMode : Bool)
    (packages : List Str) (repoOrder : List Backend)
    (hnd : repoOrder.Nodup) (hfl : Backend.flatpak ∈ repoOrder)
    (p c : Str) (hp : p ∈ packages)
    (hstr : probe p Backend.flatpak = PyValue.str c) (hcp : c ≠ p) :
    pyAssoc (resolveScan probe installMode packages repoOrder).mismatches p = some c := by
  obtain ⟨l1, l2, rfl⟩ := List.append_of_mem hfl
  have hnd2 : (Backend.flatpak :: l2).Nodup := hnd.sublist (List.sublist_append_right l1 _)
  have hfl2 : Backend.flatpak ∉ l2 := (List.nodup_cons.mp hnd2).1
  rw [resolveScan, List.foldl_append, List.foldl_cons]
  have hl2 : ∀ (l : List Backend), Backend.flatpak ∉ l → ∀ st : RState,
      (l.foldl (fun st m => packages.foldl (probePkg probe installMode m) st) st).mismatches
        = st.mismatches := by
    intro l
    induction l with
    | nil =>
      intro _ st
      rfl
    | cons r l ih =>
      intro hmem st
      rw [List.mem_cons] at hmem
      push_neg at hmem
      rw [List.foldl_cons, ih hmem.2]
      exact probePkg_fold_mismatch_nonfl probe installMode r (fun h => hmem.1 h.symm)
        packages st
  rw [hl2 l2 hfl2]
  exact probePkg_fold_mismatch probe installMode packages _ p c hstr hcp hp

theorem specHit_composed (env : Str → Backend → SubprocOutcome) (p : Str) (m : Backend) :
    (specHit (composedProbe env p m) = true) ↔ composedProbe env p m = PyValue.bool true := by
  obtain ⟨v, hv⟩ := probe_always_bool p m (env p m)
  simp only [composedProbe]
  rw [hv]
  cases v <;> simp [specHit]

/-- Claim C9: whenever at least one backend qualified, the resolver's
selection list is exactly the availability-detection order filtered to the
backends covering (Found or FoundAs) at least one requested name — never
re-sorted alphabetically or by coverage size. -/
theorem C9_detection_order (env : Str → Backend → SubprocOutcome) (installMode : Bool)
    (packages : List Str) (repoOrder : List Backend)
    (hsome : (resolveScan (composedProbe env) installMode packages repoOrder).valids ≠ []) :
    (selectOptions (composedProbe env) installMode packages repoOrder).map Prod.fst
      = some (repoOrder.filter
          (fun m => packages.any (fun p => specHit (composedProbe env p m)))) := by
  rw [selectOptions,
    if_neg (fun h => hsome (List.isEmpty_iff.mp h))]
  simp only [Option.map_some']
  congr 1
  apply List.filter_congr
  intro m hm
  have hiff : (m ∈ (resolveScan (composedProbe env) installMode packages repoOrder).valids)
      ↔ (packages.any (fun p => specHit (composedProbe env p m)) = true) := by
    rw [resolveScan_valids, List.any_eq_true]
    constructor
    · rintro ⟨_, p, hp, hpt⟩
      exact ⟨p, hp, (specHit_composed env p m).mpr hpt⟩
    · rintro ⟨p, hp, hpt⟩
      exact ⟨hm, p, hp, (specHit_composed env p m).mp hpt⟩
  by_cases hmv : m ∈ (resolveScan (composedProbe env) installMode packages repoOrder).valids
  · rw [decide_eq_true hmv]
    exact (hiff.mp hmv).symm
  · rw [decide_eq_false hmv]
    cases hb : packages.any (fun p => specHit (composedProbe env p m)) with
    | false => rfl
    | true => exact absurd (hiff.mpr hb) hmv

/-- Witness for C9 at a concrete input: apt covers `git`, snap does not;
the selection list is the detection order filtered to apt. -/
theorem C9_detection_order_witness :
    (selectOptions (composedProbe (fun _ m =>
        if m = Backend.apt then SubprocOutcome.ok (strL "git - fast version control") 0
        else SubprocOutcome.ok [] 0)) false
        [strL "git"] [Backend.apt, Backend.snap]).map Prod.fst
      = some ([Backend.apt, Backend.snap].filter
          (fun m => [strL "git"].any (fun p => specHit (composedProbe (fun _ m =>
            if m = Backend.apt then SubprocOutcome.ok (strL "git - fast version control") 0
            else SubprocOutcome.ok [] 0) p m)))) :=
  C9_detection_order (fun _ m =>
      if m = Backend.apt then SubprocOutcome.ok (strL "git - fast version control") 0
      else SubprocOutcome.ok [] 0) false
    [strL "git"] [Backend.apt, Backend.snap] (by decide)

/-- Claim C5 (counterexample): fed a FoundAs probe result (a canonical
string, which the specification's probe may produce) for the only
requested name, `select_repository` records the mismatch but does NOT
qualify the backend — the resolution comes back empty — and in query mode
the recorded mismatch note is not shown (it is shown in install mode
only). -/
theorem C5_counterexample :
    (resolveScan (fun _ _ => PyValue.str (strL "org.mozilla.firefox")) false
        [strL "firefox"] [Backend.flatpak]).mismatches
      = [(strL "firefox", strL "org.mozilla.firefox")]
    ∧ (resolveScan (fun _ _ => PyValue.str (strL "org.mozilla.firefox")) false
        [strL "firefox"] [Backend.flatpak]).valids = []
    ∧ selectOptions (fun _ _ => PyValue.str (strL "org.mozilla.firefox")) false
        [strL "firefox"] [Backend.flatpak] = none
    ∧ mismatchNoteShown (resolveScan (fun _ _ => PyValue.str (strL "org.mozilla.firefox"))
        false [strL "firefox"] [Backend.flatpak]) false = false
    ∧ mismatchNoteShown (resolveScan (fun _ _ => PyValue.str (strL "org.mozilla.firefox"))
        true [strL "firefox"] [Backend.flatpak]) true = true := by
  decide

/-- Claim C5 (amended): a `True` (Found) probe result qualifies its
backend; a flatpak canonical-string (FoundAs) result is recorded in the
mismatch map before any selection prompt, but it does not by itself
qualify the backend — the qualifying list holds exactly the backends some
of whose probes returned `True` — and the mismatch note is shown only in
install mode, never in query mode. (End to end the composed probe never
returns a string, so the map stays empty in real runs.) -/
theorem C5_mismatch_recorded (probe : Str → Backend → PyValue) (installMode : Bool)
    (packages : List Str) (repoOrder : List Backend)
    (hnd : repoOrder.Nodup) (hfl : Backend.flatpak ∈ repoOrder)
    (p c : Str) (hp : p ∈ packages)
    (hstr : probe p Backend.flatpak = PyValue.str c) (hcp : c ≠ p) :
    pyAssoc (resolveScan probe installMode packages repoOrder).mismatches p = some c
    ∧ (∀ m, m ∈ (resolveScan probe installMode packages repoOrder).valids
        ↔ m ∈ repoOrder ∧ ∃ p2 ∈ packages, probe p2 m = PyValue.bool true)
    ∧ mismatchNoteShown (resolveScan probe installMode packages repoOrder) false = false := by
  refine ⟨resolveScan_mismatch probe installMode packages repoOrder hnd hfl p c hp hstr hcp,
    fun m => resolveScan_valids probe installMode packages repoOrder m, ?_⟩
  simp [mismatchNoteShown]

/-- Witness for C5 (amended) at a concrete input. -/
theorem C5_mismatch_recorded_witness :
    pyAssoc (resolveScan (fun _ m => if m = Backend.flatpak
        then PyValue.str (strL "org.mozilla.firefox") else PyValue.bool false) false
        [strL "firefox"] [Backend.flatpak]).mismatches (strL "firefox")
      = some (strL "org.mozilla.firefox")
    ∧ (∀ m, m ∈ (resolveScan (fun _ m => if m = Backend.flatpak
          then PyValue.str (strL "org.mozilla.firefox") else PyValue.bool false) false
          [strL "firefox"] [Backend.flatpak]).valids
        ↔ m ∈ [Backend.flatpak] ∧ ∃ p2 ∈ [strL "firefox"],
            (fun _ m => if m = Backend.flatpak
              then PyValue.str (strL "org.mozilla.firefox") else PyValue.bool false)
              p2 m = PyValue.bool true)
    ∧ mismatchNoteShown (resolveScan (fun _ m => if m = Backend.flatpak
        then PyValue.str (strL "org.mozilla.firefox") else PyValue.bool false) false
        [strL "firefox"] [Backend.flatpak]) false = false :=
  C5_mismatch_recorded (fun _ m => if m = Backend.flatpak
      then PyValue.str (strL "org.mozilla.firefox") else PyValue.bool false) false
    [strL "firefox"] [Backend.flatpak] (by decide) (by decide)
    (strL "firefox") (strL "org.mozilla.firefox") (by decide) rfl (by decide)

end Evopkg
